import Mathlib

/-!
Verification of the email summarizer core (`email_summarizer_agent.py`):
MIME text extraction, token estimation, chunking, map-reduce summarization,
header parsing and digest formatting.

Text is modelled as `List Char` (Python `str` is a sequence of code points).
External collaborators are modelled as parameters:
  * `dec : List Char → List Char` stands for `_decode_base64url` followed by
    `bytes.decode(errors="ignore")` (the base64 module is library code);
  * `tok : List Char → Option Nat` stands for the tiktoken encoder inside
    `estimate_tokens` (`none` models "tiktoken unavailable or raised");
  * `backend : List Char → List Char` stands for one `run_summary` call
    (provider dispatch to OpenAI/Ollama, which is network I/O).
Backend invocations are made observable by returning, next to each result,
the ordered list of inputs passed to `backend`.
-/

/-! ## Basic string helpers -/

/-- Python substring test `pat in s` via prefix checks (`==` on chars). -/
def isPrefixL : List Char → List Char → Bool
  | [], _ => true
  | _ :: _, [] => false
  | a :: as, b :: bs => a == b && isPrefixL as bs

/-- Case-insensitive prefix test, used for the `(?i)` regex flags. -/
def isPrefixCI : List Char → List Char → Bool
  | [], _ => true
  | _ :: _, [] => false
  | a :: as, b :: bs => a.toLower == b.toLower && isPrefixCI as bs

/-- Python `pat in s` (substring containment). -/
def containsSub (pat : List Char) : List Char → Bool
  | [] => isPrefixL pat []
  | c :: rest => isPrefixL pat (c :: rest) || containsSub pat rest

/-- Python `str.lower` on the ASCII range (header names of interest are ASCII). -/
def lowerStr (s : List Char) : List Char := s.map Char.toLower

/-- ASCII whitespace as recognized by Python `str.strip` and `\s`. -/
def isPySpace (c : Char) : Bool :=
  c == ' ' || c == '\t' || c == '\n' || c == '\r' || c == '\x0b' || c == '\x0c'

/-- Python `str.strip()`: drop leading and trailing whitespace. -/
def stripList (s : List Char) : List Char :=
  ((s.dropWhile isPySpace).reverse.dropWhile isPySpace).reverse

/-- Python `sep.join(pieces)`. -/
def joinSep (sep : List Char) : List (List Char) → List Char
  | [] => []
  | [x] => x
  | x :: y :: ys => x ++ sep ++ joinSep sep (y :: ys)

/-- Python `s.split(sep)` for a one-character separator. -/
def splitOnChar (sep : Char) : List Char → List (List Char)
  | [] => [[]]
  | c :: rest =>
    match splitOnChar sep rest with
    | [] => [[c]]
    | g :: gs => if c == sep then [] :: g :: gs else (c :: g) :: gs

/-! ## HTML-to-text regex passes (`extract_plain_text`, lines 116-121)

Each `re.sub` scan is written as a fuel-indexed left-to-right scanner;
`length + 1` fuel is always enough because every match consumes at least
one character. Lazy `.*?` quantifiers are "up to the first occurrence". -/

/-- Consume through the first `>` (the lazy `.*?>` with dotall). -/
def dropThroughGT : List Char → Option (List Char)
  | [] => none
  | c :: rest => if c == '>' then some rest else dropThroughGT rest

/-- Consume through the first case-insensitive occurrence of `pat`
(the lazy `.*?</tag>` with dotall and `(?i)`). -/
def dropThroughCI (pat : List Char) : List Char → Option (List Char)
  | [] => none
  | c :: rest =>
    if isPrefixCI pat (c :: rest) then some ((c :: rest).drop pat.length)
    else dropThroughCI pat rest

def sScript : List Char := "script".toList
def sStyle : List Char := "style".toList
def sCloseScript : List Char := "</script>".toList
def sCloseStyle : List Char := "</style>".toList

/-- One leftmost match of `(?is)<(script|style).*?>.*?</\1>`; returns the
remainder after the matched block. The alternatives `script`/`style`
cannot both match, and the lazy pieces need no backtracking: a failing
first `>` (or close tag) cannot succeed from any later position. -/
def tryScriptStyle : List Char → Option (List Char)
  | '<' :: rest =>
    if isPrefixCI sScript rest then
      (dropThroughGT (rest.drop 6)).bind (dropThroughCI sCloseScript)
    else if isPrefixCI sStyle rest then
      (dropThroughGT (rest.drop 5)).bind (dropThroughCI sCloseStyle)
    else none
  | _ => none

def removeScriptStyleAux : Nat → List Char → List Char
  | 0, s => s
  | _ + 1, [] => []
  | fuel + 1, c :: rest =>
    match tryScriptStyle (c :: rest) with
    | some rem => removeScriptStyleAux fuel rem
    | none => c :: removeScriptStyleAux fuel rest

/-- `re.sub(r"(?is)<(script|style).*?>.*?</\1>", "", s)`. -/
def removeScriptStyle (s : List Char) : List Char :=
  removeScriptStyleAux (s.length + 1) s

/-- One leftmost match of `(?s)<br\s*/?>`; `\s*` is greedy but whitespace
never overlaps `/` or `>`, so a plain `dropWhile` is exact. -/
def tryBr : List Char → Option (List Char)
  | '<' :: 'b' :: 'r' :: rest =>
    match rest.dropWhile isPySpace with
    | '/' :: '>' :: r => some r
    | '>' :: r => some r
    | _ => none
  | _ => none

def replaceBrAux : Nat → List Char → List Char
  | 0, s => s
  | _ + 1, [] => []
  | fuel + 1, c :: rest =>
    match tryBr (c :: rest) with
    | some rem => '\n' :: replaceBrAux fuel rem
    | none => c :: replaceBrAux fuel rest

/-- `re.sub(r"(?s)<br\s*/?>", "\n", s)`. -/
def replaceBr (s : List Char) : List Char := replaceBrAux (s.length + 1) s

def sCloseP : List Char := "</p>".toList

def replacePAux : Nat → List Char → List Char
  | 0, s => s
  | _ + 1, [] => []
  | fuel + 1, c :: rest =>
    if isPrefixL sCloseP (c :: rest) then
      '\n' :: '\n' :: replacePAux fuel ((c :: rest).drop 4)
    else c :: replacePAux fuel rest

/-- `re.sub(r"(?s)</p>", "\n\n", s)` (a literal replacement). -/
def replaceClosingP (s : List Char) : List Char := replacePAux (s.length + 1) s

/-- One leftmost match of `(?s)<.*?>`: from `<` through the first `>`. -/
def tryTag : List Char → Option (List Char)
  | '<' :: rest => dropThroughGT rest
  | _ => none

def stripTagsAux : Nat → List Char → List Char
  | 0, s => s
  | _ + 1, [] => []
  | fuel + 1, c :: rest =>
    match tryTag (c :: rest) with
    | some rem => stripTagsAux fuel rem
    | none => c :: stripTagsAux fuel rest

/-- `re.sub(r"(?s)<.*?>", "", s)`. -/
def stripTags (s : List Char) : List Char := stripTagsAux (s.length + 1) s

/-- The four-pass HTML reduction applied to a decoded `text/html` part
(source lines 117-120, in source order). -/
def htmlToText (s : List Char) : List Char :=
  stripTags (replaceClosingP (replaceBr (removeScriptStyle s)))

/-! ## Message payloads and text extraction -/

/-- A Gmail payload node: `mimeType` (default `""`), optional `body.data`
(the still-base64url-encoded string; `none` for a missing body/data),
the `headers` list of name/value pairs, and the optional `parts` list. -/
inductive Payload where
  | mk (mimeType : List Char) (body : Option (List Char))
       (headers : List (List Char × List Char)) (parts : Option (List Payload))

def Payload.mimeType : Payload → List Char
  | .mk m _ _ _ => m

def Payload.body : Payload → Option (List Char)
  | .mk _ b _ _ => b

def Payload.headers : Payload → List (List Char × List Char)
  | .mk _ _ h _ => h

def Payload.parts : Payload → Option (List Payload)
  | .mk _ _ _ ps => ps

mutual
/-- `_walk_parts` (source lines 75-82): a node with a `parts` key yields the
leaves of its children, a node without one yields itself. -/
def walk_parts : Payload → List Payload
  | .mk m b h none => [Payload.mk m b h none]
  | .mk _ _ _ (some ps) => walkList ps
def walkList : List Payload → List Payload
  | [] => []
  | p :: rest => walk_parts p ++ walkList rest
end

def sTextPlain : List Char := "text/plain".toList
def sTextHtml : List Char := "text/html".toList

/-- The body of the part loop (source lines 107-121): a walked leaf
contributes its decoded data verbatim for `text/plain` mime types, the
HTML reduction of it for `text/html`, and nothing otherwise or when the
data is missing/empty (`if not data: continue`). -/
def partContrib (dec : List Char → List Char) (part : Payload) : Option (List Char) :=
  match part.body with
  | none => none
  | some d =>
    if d.isEmpty then none
    else
      let decoded := dec d
      if containsSub sTextPlain part.mimeType then some decoded
      else if containsSub sTextHtml part.mimeType then some (htmlToText decoded)
      else none

/-- The `text_chunks` list built by `extract_plain_text` (lines 91-121):
the decoded top-level body data first (when present and non-empty), then,
if the payload has a `parts` key, the contributions of its walked leaves. -/
def text_chunks (dec : List Char → List Char) (payload : Payload) : List (List Char) :=
  (match payload.body with
   | some d => if d.isEmpty then [] else [dec d]
   | none => []) ++
  (match payload.parts with
   | none => []
   | some _ => (walk_parts payload).filterMap (partContrib dec))

/-- `extract_plain_text` (lines 87-125): join the non-empty chunks with a
single newline and strip the result. -/
def extract_plain_text (dec : List Char → List Char) (payload : Payload) : List Char :=
  stripList (joinSep [ '\n' ] ((text_chunks dec payload).filter (fun c => !c.isEmpty)))

mutual
/-- Modelled from the spec's data model ("an ordered sequence of decoded
text fragments"): the fragment sequence of a payload, written as a direct
structural recursion over the part tree, for comparison with the
`walk_parts`-then-loop construction of the source. -/
def fragmentsOfParts (dec : List Char → List Char) : Payload → List (List Char)
  | .mk m b h none => (partContrib dec (.mk m b h none)).toList
  | .mk _ _ _ (some ps) => fragsList dec ps
def fragsList (dec : List Char → List Char) : List Payload → List (List Char)
  | [] => []
  | p :: rest => fragmentsOfParts dec p ++ fragsList dec rest
end

/-- The spec-side fragment sequence of a whole payload: the top-level body
fragment, then the fragments of the part tree when a `parts` key exists. -/
def fragmentsSpec (dec : List Char → List Char) (payload : Payload) : List (List Char) :=
  (match payload.body with
   | some d => if d.isEmpty then [] else [dec d]
   | none => []) ++
  (match payload.parts with
   | none => []
   | some _ => fragmentsOfParts dec payload)

/-! ## Token estimation and chunking -/

/-- `estimate_tokens` (lines 176-181): the tiktoken call is the oracle
`tok`; `none` models "unavailable or raised", in which case the heuristic
`max(1, len(text) // 4)` is used. -/
def estimate_tokens (tok : List Char → Option Nat) (text : List Char) : Nat :=
  match tok text with
  | some n => n
  | none => max 1 (text.length / 4)

/-- The `while i < len(text)` loop of `chunk_text` (lines 186-190), indexed
by fuel; `none` means the fuel ran out before the loop finished. -/
def chunkLoop (text : List Char) (approx : Nat) : Nat → Nat → Option (List (List Char))
  | 0, _ => none
  | fuel + 1, i =>
    if i < text.length then
      match chunkLoop text approx fuel (i + approx) with
      | none => none
      | some rest => some ((text.drop i).take approx :: rest)
    else some []

/-- `chunk_text` (lines 183-191): slice the text into pieces of
`max_tokens * 4` characters. `length + 1` fuel is enough whenever
`max_tokens > 0` (each iteration advances `i` by at least one). -/
def chunk_text (text : List Char) (max_tokens : Nat) : Option (List (List Char)) :=
  chunkLoop text (max_tokens * 4) (text.length + 1) 0

/-- The loop of `chunk_text` never terminates on this input, whatever the
fuel: the claim-level meaning of `chunk_text` diverging. -/
def chunkLoopDiverges (text : List Char) (max_tokens : Nat) : Prop :=
  ∀ fuel, chunkLoop text (max_tokens * 4) fuel 0 = none

/-! ## Map-reduce summarization -/

def combineInstr : List Char :=
  "Combine and compress these partial summaries into one under 150 words:\n".toList

def nl2 : List Char := [ '\n', '\n' ]

/-- The input of the final combine call of `summarize_long_text`:
the chunk summaries joined by a double newline, behind the instruction. -/
def finalCombineInput (backend : List Char → List Char) (chunks : List (List Char)) : List Char :=
  combineInstr ++ joinSep nl2 (chunks.map backend)

/-- `summarize_long_text` (lines 193-203). `backend` is `run_summary`; the
second component records the input of every backend invocation in order.
`none` only if `chunk_text` runs out of fuel, which never happens at
budget 5000 (see `chunk_text_total`). -/
def summarize_long_text (tok : List Char → Option Nat) (backend : List Char → List Char)
    (text : List Char) : Option (List Char × List (List Char)) :=
  let tokens := estimate_tokens tok text
  if tokens < 6000 then some (backend text, [text])
  else
    match chunk_text text 5000 with
    | none => none
    | some chunks =>
      let finalInput := finalCombineInput backend chunks
      some (backend finalInput, chunks ++ [finalInput])

/-! ## Header parsing -/

def kSubject : List Char := "subject".toList
def kFrom : List Char := "from".toList
def kDate : List Char := "date".toList
def kMessageId : List Char := "message-id".toList

/-- The fixed key set of `parse_headers` (line 240). -/
def keysOfInterest : List (List Char) := [kSubject, kFrom, kDate, kMessageId]

/-- Python dict assignment `out[k] = v`: replace the value of an existing
key in place, otherwise append the binding. -/
def dictInsert (k v : List Char) : List (List Char × List Char) → List (List Char × List Char)
  | [] => [(k, v)]
  | (k', v') :: rest => if k' = k then (k, v) :: rest else (k', v') :: dictInsert k v rest

/-- Python dict lookup. -/
def dictLookup (k : List Char) : List (List Char × List Char) → Option (List Char)
  | [] => none
  | (k', v) :: rest => if k' = k then some v else dictLookup k rest

/-- The loop body of `parse_headers` (lines 236-241): lower-case the name
and assign into the dict when it is a key of interest. -/
def headerStep (out : List (List Char × List Char)) (h : List Char × List Char) :
    List (List Char × List Char) :=
  let lname := lowerStr h.1
  if lname ∈ keysOfInterest then dictInsert lname h.2 out else out

/-- `parse_headers` (lines 234-242): fold over the header list, keeping
lower-cased names from the key set; a repeated name overwrites. -/
def parse_headers (payload : Payload) : List (List Char × List Char) :=
  payload.headers.foldl headerStep []

/-- Modelled from the claim's words ("the value kept is the … occurrence's
value"): the value of the last header whose lower-cased name equals `k`. -/
def lastMatch (k : List Char) : List (List Char × List Char) → Option (List Char)
  | [] => none
  | h :: rest =>
    match lastMatch k rest with
    | some v => some v
    | none => if lowerStr h.1 = k then some h.2 else none

/-! ## Digest formatting -/

def dNoSubject : List Char := "(no subject)".toList
def dUnknownSender : List Char := "(unknown sender)".toList
def fH3 : List Char := "### ".toList
def fFrom : List Char := "- **From:** ".toList
def fDate : List Char := "- **Date:** ".toList
def fGmailId : List Char := "- **Gmail ID:** `".toList
def fBacktick : List Char := "`".toList
def fLinkLabel : List Char := "- **Link:** ".toList
def fSep : List Char := "\n---\n".toList

/-- The `meta` dict handed to `format_summary_md`; `none` models a missing
key (the `meta.get(..., default)` calls supply the defaults). -/
structure Meta where
  subject : Option (List Char)
  frm : Option (List Char)
  date : Option (List Char)
  permalink : Option (List Char)
  id : Option (List Char)

/-- `format_summary_md` (lines 215-232). -/
def format_summary_md (meta : Meta) (summary : List Char) : List Char :=
  let subject := meta.subject.getD dNoSubject
  let frm := meta.frm.getD dUnknownSender
  let date := meta.date.getD []
  let link := meta.permalink.getD []
  let msg_id := meta.id.getD []
  let lines := [fH3 ++ subject, fFrom ++ frm, fDate ++ date,
                fGmailId ++ msg_id ++ fBacktick]
  let lines := if link.isEmpty then lines else lines ++ [fLinkLabel ++ link]
  let lines := lines ++ [[], summary, fSep]
  joinSep [ '\n' ] lines

/-! ## The per-message pipeline loop -/

def permalinkBase : List Char := "https://mail.google.com/mail/u/0/#inbox/".toList

/-- One iteration of the message loop of `fetch_and_summarize`
(lines 255-274) on the state (summarized count, digest blocks, backend
trace). A message is a pair of its id and its payload. The `none` arm of
the `summarize_long_text` match is unreachable (budget 5000 chunking
always terminates, `chunk_text_total`). -/
def processMessage (tok : List Char → Option Nat) (backend : List Char → List Char)
    (dec : List Char → List Char)
    (st : Nat × List (List Char) × List (List Char))
    (msg : List Char × Payload) : Nat × List (List Char) × List (List Char) :=
  let headers := parse_headers msg.2
  let text := extract_plain_text dec msg.2
  if (stripList text).isEmpty then st
  else
    match summarize_long_text tok backend text with
    | none => st
    | some (summary, trace) =>
      let meta : Meta :=
        { subject := some ((dictLookup kSubject headers).getD dNoSubject)
          frm := some ((dictLookup kFrom headers).getD dUnknownSender)
          date := some ((dictLookup kDate headers).getD [])
          permalink := some (permalinkBase ++ msg.1)
          id := some msg.1 }
      (st.1 + 1, st.2.1 ++ [format_summary_md meta summary], st.2.2 ++ trace)

/-- The message loop of `fetch_and_summarize`: summarized count, digest
blocks in order, and all backend invocation inputs in order. The digest
header line and the file write are I/O outside the loop. -/
def processMessages (tok : List Char → Option Nat) (backend : List Char → List Char)
    (dec : List Char → List Char)
    (msgs : List (List Char × Payload)) : Nat × List (List Char) × List (List Char) :=
  msgs.foldl (processMessage tok backend dec) (0, [], [])

/-! ## Concrete instances used in closed theorems -/

/-- The HTML body of the spec's extraction test case. -/
def htmlC3 : List Char := "<p>Hello<br>World</p><script>bad()</script>".toList

/-- A decode oracle whose every output is the C3 HTML body. -/
def decC3 : List Char → List Char := fun _ => htmlC3

/-- A message payload with a single `text/html` part whose (non-empty
encoded) data decodes to the C3 HTML body under `decC3`. -/
def payloadC3 : Payload :=
  Payload.mk [] none [] (some [Payload.mk sTextHtml (some ("ZGF0YQ".toList)) [] none])

/-- The identity decode oracle: parts carry their decoded text directly. -/
def decId : List Char → List Char := fun d => d

/-- A payload whose `Subject` header occurs twice with different values. -/
def pC4 : Payload :=
  Payload.mk [] none [("Subject".toList, [ 'A' ]), ("Subject".toList, [ 'B' ])] none

/-- A payload with two decodable `text/plain` parts (fragments `a`, `b`). -/
def pC5 : Payload := Payload.mk [] none [] (some [
  Payload.mk sTextPlain (some [ 'a' ]) [] none,
  Payload.mk sTextPlain (some [ 'b' ]) [] none])

/-- The spec's digest-formatter test record: subject `Hi`, sender
`a@b.com`, date `Mon`, id `123`, no permalink. -/
def metaC9 : Meta :=
  ⟨some ("Hi".toList), some ("a@b.com".toList), some ("Mon".toList), none,
   some ("123".toList)⟩

/-- The digest block produced for `metaC9` with summary `Test`. -/
def sC9out : List Char :=
  "### Hi\n- **From:** a@b.com\n- **Date:** Mon\n- **Gmail ID:** `123`\n\nTest\n\n---\n".toList

/-! ## Theorems -/

/-- Shared helper: with a positive slice width, the chunking loop
terminates within `length - i < fuel`, its chunks concatenate to the
unprocessed suffix, and every chunk is at most `approx` long. -/
theorem chunkLoop_spec (text : List Char) (approx : Nat) (ha : 0 < approx) :
    ∀ fuel i, text.length - i < fuel →
      ∃ cs, chunkLoop text approx fuel i = some cs ∧
        cs.flatten = text.drop i ∧ ∀ c ∈ cs, c.length ≤ approx := by
  intro fuel
  induction fuel with
  | zero => intro i h; omega
  | succ n ih =>
    intro i h
    by_cases hi : i < text.length
    · have h' : text.length - (i + approx) < n := by omega
      obtain ⟨cs, hcs, hjoin, hlen⟩ := ih (i + approx) h'
      refine ⟨(text.drop i).take approx :: cs, ?_, ?_, ?_⟩
      · simp [chunkLoop, hi, hcs]
      · simp only [List.flatten_cons, hjoin]
        rw [← List.drop_drop, List.take_append_drop]
      · intro c hc
        rcases List.mem_cons.mp hc with rfl | hc
        · exact List.length_take_le _ _
        · exact hlen c hc
    · have hle : text.length ≤ i := by omega
      refine ⟨[], ?_, ?_, ?_⟩
      · simp [chunkLoop, hi]
      · simp [List.drop_eq_nil_iff.mpr hle]
      · simp

/-- Shared helper: a positive token budget makes `chunk_text` terminate. -/
theorem chunk_text_total (text : List Char) (budget : Nat) (hb : 0 < budget) :
    ∃ cs, chunk_text text budget = some cs ∧
      cs.flatten = text ∧ ∀ c ∈ cs, c.length ≤ budget * 4 := by
  have h := chunkLoop_spec text (budget * 4) (by omega) (text.length + 1) 0 (by omega)
  simpa [chunk_text] using h

/-- C1 (amended: positive token budget): for every text and every positive
token budget, `chunk_text` terminates and the chunks it returns
concatenate, in order, to exactly the input text, each chunk no longer
than `budget * 4` characters. -/
theorem chunk_text_roundtrip (text : List Char) (budget : Nat) (hb : 0 < budget) :
    ∃ cs, chunk_text text budget = some cs ∧
      cs.flatten = text ∧ ∀ c ∈ cs, c.length ≤ budget * 4 :=
  chunk_text_total text budget hb

/-- C1 witness: at text `"hello"` and budget 1 the theorem applies. -/
theorem chunk_text_roundtrip_witness :
    0 < 1 ∧ ∃ cs, chunk_text ("hello".toList) 1 = some cs ∧
      cs.flatten = "hello".toList ∧ ∀ c ∈ cs, c.length ≤ 1 * 4 :=
  ⟨by decide, chunk_text_roundtrip ("hello".toList) 1 (by decide)⟩

/-- C1 counterexample: at token budget 0 (a value the claim's "every token
budget" includes) the `while` loop of `chunk_text` never advances `i`, so
it never terminates on any non-empty text: no chunk list is returned at
all, whatever the fuel. -/
theorem chunk_text_budget_zero_diverges :
    chunkLoopDiverges [ 'a' ] 0 ∧ chunk_text [ 'a' ] 0 = none := by
  constructor
  · intro fuel
    show chunkLoop [ 'a' ] 0 fuel 0 = none
    induction fuel with
    | zero => rfl
    | succ n ih => simp [chunkLoop, ih]
  · rfl

/-- C6 (amended: non-empty text): for every non-empty text whose length is
at most the token budget, `chunk_text` returns exactly one chunk, equal to
the whole text. -/
theorem chunk_text_single_chunk (text : List Char) (budget : Nat)
    (hne : text ≠ []) (hlen : text.length ≤ budget) :
    chunk_text text budget = some [text] := by
  have hpos : 0 < text.length := List.length_pos.mpr hne
  have hlen4 : text.length ≤ budget * 4 := by omega
  obtain ⟨m, hm⟩ : ∃ m, text.length = m + 1 := ⟨text.length - 1, by omega⟩
  have hnot : ¬ budget * 4 < text.length := by omega
  have step1 : chunkLoop text (budget * 4) (m + 1 + 1) 0 = some [text] := by
    simp [chunkLoop, hpos, hnot, List.take_of_length_le hlen4]
  unfold chunk_text
  rw [hm]
  exact step1

/-- C6 witness: at text `"ab"` and budget 2 the theorem applies. -/
theorem chunk_text_single_chunk_witness :
    chunk_text ("ab".toList) 2 = some ["ab".toList] :=
  chunk_text_single_chunk ("ab".toList) 2 (by decide) (by decide)

/-- C6 counterexample: the empty text has length at most any budget, yet
`chunk_text` returns an empty chunk sequence, not a one-element sequence
holding the (empty) text. -/
theorem chunk_text_empty_counterexample :
    chunk_text ([] : List Char) 5 = some [] ∧
      some ([] : List (List Char)) ≠ some [([] : List Char)] := by
  constructor
  · rfl
  · decide

/-- C2: every run of `summarize_long_text` terminates; when the estimated
token count is below 6000 the backend is invoked exactly once, on the full
text; otherwise the trace of backend inputs is exactly the chunks of the
text at budget 5000, in order, followed by one final input made of the
chunk summaries joined by a double newline behind the combine-and-compress
instruction — `N + 1` invocations for `N` chunks. -/
theorem summarize_long_text_calls (tok : List Char → Option Nat)
    (backend : List Char → List Char) (text : List Char) :
    ∃ chunks, chunk_text text 5000 = some chunks ∧
      summarize_long_text tok backend text =
        some (if estimate_tokens tok text < 6000
              then (backend text, [text])
              else (backend (finalCombineInput backend chunks),
                    chunks ++ [finalCombineInput backend chunks])) ∧
      (chunks ++ [finalCombineInput backend chunks]).length = chunks.length + 1 := by
  obtain ⟨chunks, hcs, -, -⟩ := chunk_text_total text 5000 (by omega)
  refine ⟨chunks, hcs, ?_, by simp⟩
  by_cases h : estimate_tokens tok text < 6000
  · simp [summarize_long_text, h]
  · simp [summarize_long_text, h, hcs]

mutual
/-- Shared helper: running the part loop over the walked leaves of a
payload yields exactly the fragment sequence of its part tree. -/
theorem walk_parts_contribs (dec : List Char → List Char) (p : Payload) :
    (walk_parts p).filterMap (partContrib dec) = fragmentsOfParts dec p := by
  cases p with
  | mk m b h ps =>
    cases ps with
    | none =>
      cases hc : partContrib dec (Payload.mk m b h none) <;>
        simp [walk_parts, fragmentsOfParts, hc]
    | some ps =>
      simp only [walk_parts, fragmentsOfParts]
      exact walkList_contribs dec ps
/-- Shared helper, list form of `walk_parts_contribs`. -/
theorem walkList_contribs (dec : List Char → List Char) (ps : List Payload) :
    (walkList ps).filterMap (partContrib dec) = fragsList dec ps := by
  cases ps with
  | nil => simp [walkList, fragsList]
  | cons p rest =>
    simp only [walkList, fragsList, List.filterMap_append]
    rw [walk_parts_contribs dec p, walkList_contribs dec rest]
end

/-- C5 (amended: single-newline separation): for every decode oracle and
payload, the extracted text is the ordered sequence of decoded non-empty
fragments of the payload joined with a single newline between consecutive
fragments, with leading and trailing whitespace stripped. -/
theorem extract_plain_text_newline_join (dec : List Char → List Char) (p : Payload) :
    extract_plain_text dec p =
      stripList (joinSep [ '\n' ]
        ((fragmentsSpec dec p).filter (fun c => !c.isEmpty))) := by
  unfold extract_plain_text fragmentsSpec text_chunks
  rw [walk_parts_contribs]

/-- C5 counterexample: a payload with two decodable `text/plain` parts,
`a` then `b`, extracts to `a`, one newline, `b` — there is no blank line
between consecutive fragments as the claim's blank-line separation would
produce. -/
theorem extract_plain_text_blank_line_false :
    extract_plain_text decId pC5 = "a\nb".toList ∧
      ("a\nb".toList : List Char) ≠ "a\n\nb".toList := by decide

/-- C10: a payload carrying non-empty top-level body data and a parts list
contributes both: the decoded top-level data is the first fragment, ahead
of every part contribution, and the extracted text is built from that
fragment sequence. -/
theorem text_chunks_top_body_first (dec : List Char → List Char) (m : List Char)
    (h : List (List Char × List Char)) (d : List Char) (ps : List Payload)
    (hd : d ≠ []) :
    text_chunks dec (Payload.mk m (some d) h (some ps)) =
      dec d :: fragsList dec ps ∧
    extract_plain_text dec (Payload.mk m (some d) h (some ps)) =
      stripList (joinSep [ '\n' ]
        ((dec d :: fragsList dec ps).filter (fun c => !c.isEmpty))) := by
  have hne : d.isEmpty = false := by
    cases d with
    | nil => exact absurd rfl hd
    | cons c cs => rfl
  have hchunks : text_chunks dec (Payload.mk m (some d) h (some ps)) =
      dec d :: fragsList dec ps := by
    have hwalk : walk_parts (Payload.mk m (some d) h (some ps)) = walkList ps := rfl
    simp [text_chunks, Payload.body, Payload.parts, hne, hwalk, walkList_contribs]
  exact ⟨hchunks, by rw [extract_plain_text, hchunks]⟩

/-- C10 witness: a payload with body data `t` and one `text/plain` part. -/
theorem text_chunks_top_body_first_witness :
    text_chunks decId (Payload.mk [] (some [ 't' ]) []
        (some [Payload.mk sTextPlain (some [ 'u' ]) [] none])) =
      decId [ 't' ] :: fragsList decId [Payload.mk sTextPlain (some [ 'u' ]) [] none] ∧
    extract_plain_text decId (Payload.mk [] (some [ 't' ]) []
        (some [Payload.mk sTextPlain (some [ 'u' ]) [] none])) =
      stripList (joinSep [ '\n' ]
        ((decId [ 't' ] :: fragsList decId [Payload.mk sTextPlain (some [ 'u' ]) [] none]).filter
          (fun c => !c.isEmpty))) :=
  text_chunks_top_body_first decId [] [] [ 't' ]
    [Payload.mk sTextPlain (some [ 'u' ]) [] none] (by decide)

/-- Shared helper: looking up the key just assigned finds the new value. -/
theorem dictLookup_insert_self (k v : List Char) (d : List (List Char × List Char)) :
    dictLookup k (dictInsert k v d) = some v := by
  induction d with
  | nil => simp [dictInsert, dictLookup]
  | cons kv rest ih =>
    obtain ⟨k', v'⟩ := kv
    by_cases hk : k' = k
    · simp [dictInsert, hk, dictLookup]
    · simp [dictInsert, hk, dictLookup, ih]

/-- Shared helper: assigning a different key leaves a lookup unchanged. -/
theorem dictLookup_insert_ne (k k' v : List Char) (d : List (List Char × List Char))
    (hne : k' ≠ k) :
    dictLookup k (dictInsert k' v d) = dictLookup k d := by
  induction d with
  | nil => simp [dictInsert, dictLookup, hne]
  | cons kv rest ih =>
    obtain ⟨a, b⟩ := kv
    by_cases ha : a = k'
    · simp [dictInsert, ha, dictLookup, hne]
    · by_cases hak : a = k
      · simp [dictInsert, ha, dictLookup, hak, Ne.symm hne]
      · simp [dictInsert, ha, dictLookup, hak, ih]

/-- Shared helper: every binding of `dictInsert k v d` has key `k` or was
already in `d`. -/
theorem dictInsert_keys (k v : List Char) (d : List (List Char × List Char)) :
    ∀ kv ∈ dictInsert k v d, kv.1 = k ∨ kv ∈ d := by
  induction d with
  | nil => intro kv hkv; simp [dictInsert] at hkv; simp [hkv]
  | cons hd rest ih =>
    obtain ⟨a, b⟩ := hd
    intro kv hkv
    by_cases ha : a = k
    · simp [dictInsert, ha] at hkv
      rcases hkv with h1 | h2
      · left; simp [h1]
      · right; simp [h2]
    · simp [dictInsert, ha] at hkv
      rcases hkv with h1 | h2
      · right; simp [h1]
      · rcases ih kv h2 with h3 | h4
        · left; exact h3
        · right; simp [h4]

/-- Shared helper: every key produced by the header fold is a key of
interest, provided the accumulator's keys already are. -/
theorem headerFold_keys (hs : List (List Char × List Char)) :
    ∀ acc, (∀ kv ∈ acc, kv.1 ∈ keysOfInterest) →
      ∀ kv ∈ hs.foldl headerStep acc, kv.1 ∈ keysOfInterest := by
  induction hs with
  | nil => intro acc hacc; simpa using hacc
  | cons h rest ih =>
    intro acc hacc
    simp only [List.foldl_cons]
    apply ih
    intro kv hkv
    unfold headerStep at hkv
    by_cases hm : lowerStr h.1 ∈ keysOfInterest
    · simp only [if_pos hm] at hkv
      rcases dictInsert_keys _ _ _ kv hkv with h1 | h2
      · rw [h1]; exact hm
      · exact hacc kv h2
    · simp only [if_neg hm] at hkv
      exact hacc kv hkv

/-- Shared helper: for a key of interest, a lookup after the header fold
returns the last matching header value, else falls back to the
accumulator. -/
theorem headerFold_lookup (k : List Char) (hk : k ∈ keysOfInterest)
    (hs : List (List Char × List Char)) :
    ∀ acc, dictLookup k (hs.foldl headerStep acc) =
      match lastMatch k hs with
      | some v => some v
      | none => dictLookup k acc := by
  induction hs with
  | nil => intro acc; simp [lastMatch]
  | cons h rest ih =>
    intro acc
    simp only [List.foldl_cons, lastMatch]
    by_cases hm : lowerStr h.1 = k
    · have hstep : headerStep acc h = dictInsert k h.2 acc := by
        unfold headerStep
        rw [hm, if_pos hk]
      rw [hstep, ih]
      cases hlm : lastMatch k rest with
      | some v => simp
      | none => simp [hm, dictLookup_insert_self]
    · have hstep : dictLookup k (headerStep acc h) = dictLookup k acc := by
        unfold headerStep
        by_cases hmem : lowerStr h.1 ∈ keysOfInterest
        · rw [if_pos hmem, dictLookup_insert_ne _ _ _ _ hm]
        · rw [if_neg hmem]
      rw [ih]
      cases hlm : lastMatch k rest with
      | some v => simp
      | none => simp [hm, hstep]

/-- C4 (amended: the LAST occurrence wins): the header map's key set is
restricted to subject, from, date and message-id, and each key of
interest looks up to the value of the last header occurrence whose
lower-cased name matches — a repeated name keeps the last value, because
the dict assignment overwrites. -/
theorem parse_headers_spec (p : Payload) :
    (∀ kv ∈ parse_headers p, kv.1 ∈ keysOfInterest) ∧
    ∀ k ∈ keysOfInterest, dictLookup k (parse_headers p) = lastMatch k p.headers := by
  constructor
  · exact headerFold_keys p.headers [] (by simp)
  · intro k hk
    unfold parse_headers
    rw [headerFold_lookup k hk p.headers []]
    cases hlm : lastMatch k p.headers with
    | some v => simp
    | none => simp [dictLookup]

/-- C4 witness: on the duplicate-subject payload the theorem applies at
the key `subject`, whose lookup equals the last match. -/
theorem parse_headers_spec_witness :
    dictLookup kSubject (parse_headers pC4) = lastMatch kSubject pC4.headers :=
  (parse_headers_spec pC4).2 kSubject (by decide)

/-- C4 counterexample: with two `Subject` headers valued `A` then `B`,
`parse_headers` keeps `B` — the last occurrence, not the first. -/
theorem parse_headers_first_value_false :
    dictLookup kSubject (parse_headers pC4) = some [ 'B' ] ∧
      some [ 'B' ] ≠ some [ 'A' ] := by decide

/-- C7: the token estimator is a total function of its input by
construction — any tokenizer failure is the `none` case of the oracle and
silently degrades to `max 1 (length / 4)` — and for every non-empty input
it returns a positive count, given that the byte-pair tokenizer returns a
positive count whenever it succeeds. -/
theorem estimate_tokens_pos (tok : List Char → Option Nat) (text : List Char)
    (htok : ∀ n, tok text = some n → 0 < n) (_hne : text ≠ []) :
    0 < estimate_tokens tok text := by
  unfold estimate_tokens
  cases hcase : tok text with
  | some n => exact htok n hcase
  | none => exact Nat.lt_of_lt_of_le Nat.zero_lt_one (Nat.le_max_left _ _)

/-- C7 witness: a tokenizer that always fails, on the text `a`: the
heuristic fallback is positive. -/
theorem estimate_tokens_pos_witness :
    0 < estimate_tokens (fun _ => none) [ 'a' ] :=
  estimate_tokens_pos (fun _ => none) [ 'a' ] (fun n h => nomatch h) (by decide)

/-- Shared helper: a message whose extracted text strips to empty leaves
the loop state untouched. -/
theorem processMessage_skip (tok : List Char → Option Nat)
    (backend : List Char → List Char) (dec : List Char → List Char)
    (st : Nat × List (List Char) × List (List Char)) (msg : List Char × Payload)
    (h : (stripList (extract_plain_text dec msg.2)).isEmpty = true) :
    processMessage tok backend dec st msg = st := by
  unfold processMessage
  simp [h]

/-- C8: a message whose extracted text is empty (or whitespace-only) is
skipped without failing: deleting it from the message list changes
nothing — the summarized count, the emitted digest blocks and the backend
invocation trace are identical with and without it. -/
theorem processMessages_skip_empty (tok : List Char → Option Nat)
    (backend : List Char → List Char) (dec : List Char → List Char)
    (pre post : List (List Char × Payload)) (msg : List Char × Payload)
    (h : (stripList (extract_plain_text dec msg.2)).isEmpty = true) :
    processMessages tok backend dec (pre ++ msg :: post) =
      processMessages tok backend dec (pre ++ post) := by
  unfold processMessages
  have e : ∀ s : Nat × List (List Char) × List (List Char),
      processMessage tok backend dec s msg = s :=
    fun s => processMessage_skip tok backend dec s msg h
  rw [show pre ++ msg :: post = (pre ++ [msg]) ++ post from by simp]
  rw [List.foldl_append, List.foldl_append, List.foldl_append]
  simp [e]

/-- C8 witness: one message with no decodable body between two empty
surrounding lists is processed into the empty pipeline result. -/
theorem processMessages_skip_empty_witness :
    processMessages (fun _ => none) (fun _ => [ 's' ]) decId
        ([] ++ ([ 'i' ], Payload.mk [] none [] none) :: []) =
      processMessages (fun _ => none) (fun _ => [ 's' ]) decId ([] ++ []) :=
  processMessages_skip_empty (fun _ => none) (fun _ => [ 's' ]) decId [] []
    ([ 'i' ], Payload.mk [] none [] none) (by decide)

/-- C3: on a payload whose single `text/html` part decodes to the HTML
body with a paragraph, a line break and a script block, the extractor
returns `Hello`, a newline, `World`: it contains `Hello` and `World`,
does not contain `bad()`, and holds no angle bracket at all — script
content removed, `br` turned into a newline, the remaining tags
stripped. -/
theorem extract_plain_text_html_case :
    extract_plain_text decC3 payloadC3 = "Hello\nWorld".toList ∧
    containsSub ("Hello".toList) (extract_plain_text decC3 payloadC3) = true ∧
    containsSub ("World".toList) (extract_plain_text decC3 payloadC3) = true ∧
    containsSub ("bad()".toList) (extract_plain_text decC3 payloadC3) = false ∧
    (extract_plain_text decC3 payloadC3).all
      (fun c => !(c == '<') && !(c == '>')) = true := by decide

/-- C9: the digest block for the record with subject `Hi`, sender
`a@b.com`, date `Mon` and id `123`, with summary `Test`, is exactly the
fixed-structure block: it contains the heading `### Hi`, one of its lines
contains `a@b.com`, one of its lines contains `123` in backticks, the
blank line and the summary follow, and it ends in a separator line of
dashes. -/
theorem format_summary_md_case :
    format_summary_md metaC9 ("Test".toList) = sC9out ∧
    containsSub ("### Hi".toList) sC9out = true ∧
    (splitOnChar '\n' sC9out).any (fun l => containsSub ("a@b.com".toList) l) = true ∧
    (splitOnChar '\n' sC9out).any (fun l => containsSub ("`123`".toList) l) = true ∧
    List.isSuffixOf ("\n---\n".toList) sC9out = true := by decide
